import Mathlib

/-!
Shallow embedding of `src/backend/server.js` (TCS onboarding reconciliation
server) and proofs about its reconciliation engine.

Modelling conventions:
* The two mongoose collections are modelled as plain lists of documents:
  `PrimeData` as `List Person`, `CommunityData` as `List CommunitySnapshot`.
  `findOne` is first-match lookup; `save` replaces the found document in
  place (mongoose persists the fetched document back by identity).
* JavaScript `String.prototype.split` (with a non-empty string separator) is
  modelled character-list-recursively by `jsSplit`, and the expression
  `name.split('- ')[1].split(' ').slice(0, 2).join(' ')` by
  `deriveJoinLabel`, which returns `none` exactly when `[1]` is `undefined`
  (in which case the JS code raises a `TypeError`).
* `fetchMembersBySlug`'s unbounded `while (true)` loop is given explicit
  fuel; theorems show the result is fuel-independent once the fuel covers
  the terminating page, which is the termination statement.  The loop is
  instrumented to also return the list of page numbers it requested.
* Failures of the upstream endpoints are values: the community-list fetch
  outcome is an `Except` (the catch block maps failure to `[]`), and each
  member-page call returns a `PageResult` (`ok`, HTTP-500 failure, or other
  failure), mirroring the `catch` classification at lines 102-106.
* The per-entry reconciliation loop can raise (join-label derivation at
  lines 139/147 indexes a possibly-`undefined` split component); this is
  modelled by a `Bool` success flag that aborts the remainder of the loop,
  since `processCommunityData` has no try/catch around the loop body.
  The unawaited `updateOnboardingData(...)` calls (lines 140/148) are
  applied synchronously: their effects land, and a failure inside them
  cannot abort the loop (fire-and-forget).
-/

/-- A `PrimeData` document (schema at lines 28-32): `name`, `id`,
`joiningDate : [String]`. -/
structure Person where
  name : String
  id : String
  joiningDate : List String
deriving DecidableEq, Repr

/-- A member object returned by the member-search endpoint; only the
`usrloginid` field is consumed (line 114). -/
structure Member where
  usrloginid : String
deriving DecidableEq, Repr

/-- `existingRecord.save()` on the document returned by
`PrimeData.findOne({ id })`: replace the first document whose `id` field
matches. -/
def savePerson : List Person → String → Person → List Person
  | [], _, _ => []
  | p :: rest, uid, q =>
    if p.id == uid then q :: rest else p :: savePerson rest uid q

/-- Loop body of `updateOnboardingData` (lines 113-122): look up the record
by `usrloginid`; if present and the label is absent, unshift it and save. -/
def mergeOne (st : List Person) (uid : String) (joiningDate : String) : List Person :=
  match st.find? (fun p => p.id == uid) with
  | none => st
  | some existingRecord =>
    if existingRecord.joiningDate.contains joiningDate then st
    else savePerson st uid
      { existingRecord with joiningDate := joiningDate :: existingRecord.joiningDate }

/-- `updateOnboardingData(members, joiningDate)` (lines 112-123) over the
`PrimeData` store. -/
def updateOnboardingData (members : List Member) (joiningDate : String)
    (st : List Person) : List Person :=
  members.foldl (fun s m => mergeOne s m.usrloginid joiningDate) st

/-! ## Member pager (`fetchMembersBySlug`, lines 84-109) -/

/-- Outcome of one call to the member-search endpoint: a successful JSON
array, an HTTP-500 failure (`error.response.status === 500`, line 103), or
any other failure (line 104). -/
inductive PageResult where
  | ok (members : List Member)
  | failure500
  | failureOther
deriving DecidableEq, Repr

/-- The `while (true)` loop of `fetchMembersBySlug`, instrumented to also
return the list of page numbers requested, with explicit fuel.  Per
iteration (lines 89-106): call the endpoint for `page`; an empty array
breaks; otherwise concatenate and increment `page`; a 500 failure breaks;
any other failure is logged and breaks. -/
def fetchMembersGo (endpoint : Nat → PageResult) :
    Nat → Nat → List Member → List Member × List Nat
  | 0, _, acc => (acc, [])
  | fuel + 1, page, acc =>
    match endpoint page with
    | .ok [] => (acc, [page])
    | .ok (m :: ms) =>
      let r := fetchMembersGo endpoint fuel (page + 1) (acc ++ (m :: ms))
      (r.1, page :: r.2)
    | .failure500 => (acc, [page])
    | .failureOther => (acc, [page])

/-- `fetchMembersBySlug(slug)` (lines 84-109): loop from page 1 with an
empty accumulator; the endpoint for the slug is passed in as a function
from page number to outcome. -/
def fetchMembersBySlug (endpoint : Nat → PageResult) (fuel : Nat) : List Member :=
  (fetchMembersGo endpoint fuel 1 []).1

/-- A page call (line 90) either terminates the loop (empty array, 500
failure, other failure) or contributes a non-empty batch. -/
def stopsLoop : PageResult → Bool
  | .ok [] => true
  | .ok (_ :: _) => false
  | .failure500 => true
  | .failureOther => true

/-! ## String splitting and join-label derivation -/

/-- `sep` is a leading segment of `cs` (used to model how JS `split` scans
for the next separator occurrence). -/
def headMatches : List Char → List Char → Bool
  | [], _ => true
  | _ :: _, [] => false
  | c :: s, d :: ds => c == d && headMatches s ds

/-- Character-level worker for JS `String.prototype.split` with a non-empty
string separator: scan left to right, cut at each separator occurrence.
`fuel` dominates the scan length so the recursion is structural. -/
def jsSplitAux (sep : List Char) : Nat → List Char → List Char → List (List Char)
  | _, [], cur => [cur]
  | 0, cs, cur => [cur ++ cs]
  | fuel + 1, c :: cs, cur =>
    if headMatches sep (c :: cs) then
      cur :: jsSplitAux sep fuel (List.drop sep.length (c :: cs)) []
    else
      jsSplitAux sep fuel cs (cur ++ [c])

/-- JS `s.split(sep)` for a non-empty `sep`, on Lean strings. -/
def jsSplit (sep s : String) : List String :=
  (jsSplitAux sep.data (s.data.length + 1) s.data []).map String.mk

/-- The join-label derivation `name.split('- ')[1].split(' ').slice(0, 2).join(' ')`
(lines 139 and 147).  `none` means `name.split('- ')[1]` was `undefined`,
in which case the JS expression raises a `TypeError`. -/
def deriveJoinLabel (name : String) : Option String :=
  match (jsSplit "- " name)[1]? with
  | none => none
  | some rest => some (String.intercalate " " ((jsSplit " " rest).take 2))

/-! ## Reconciliation engine (`processCommunityData`, lines 126-151) -/

/-- One community-list entry (destructured at line 130). -/
structure Entry where
  slug : String
  member_count : Nat
  name : String
deriving DecidableEq, Repr

/-- A `CommunityData` document (schema at lines 36-39). -/
structure CommunitySnapshot where
  slug : String
  countOfMembers : Nat
deriving DecidableEq, Repr

/-- Combined persistent store: the `PrimeData` and `CommunityData`
collections. -/
structure RecState where
  prime : List Person
  comm : List CommunitySnapshot
deriving DecidableEq, Repr

/-- `existingEntry.save()` on the document returned by
`CommunityData.findOne({ slug })`: replace the first document whose `slug`
matches. -/
def saveCommunity : List CommunitySnapshot → String → CommunitySnapshot → List CommunitySnapshot
  | [], _, _ => []
  | c :: rest, slug, q =>
    if c.slug == slug then q :: rest else c :: saveCommunity rest slug q

/-- `fetchCommunityData` (lines 63-81): its catch block returns `[]` on any
failure, so the caller sees a plain list either way. -/
def fetchCommunityData (outcome : Except Unit (List Entry)) : List Entry :=
  match outcome with
  | .ok entries => entries
  | .error _ => []

/-- Body of the `for (const newEntry of communityDataNew)` loop
(lines 129-150) for one entry.  `endpoints slug` is the member-search
endpoint for that slug.  Returns the new store state, the slugs for which a
member pull was issued, and `false` exactly when the join-label derivation
raised (aborting the loop).  In both the changed-group and the new-group
branch the snapshot write (lines 136-137 / 144-145) happens before the
derivation, so it persists even when the derivation raises; the merge
(lines 140/148) is fire-and-forget, so its effects are applied but a
failure inside it cannot abort the loop. -/
def processEntry (endpoints : String → Nat → PageResult) (fuel : Nat)
    (st : RecState) (e : Entry) : RecState × List String × Bool :=
  match st.comm.find? (fun c => c.slug == e.slug) with
  | some existingEntry =>
    if existingEntry.countOfMembers ≠ e.member_count then
      let members := fetchMembersBySlug (endpoints e.slug) fuel
      let comm' := saveCommunity st.comm e.slug
        { existingEntry with countOfMembers := e.member_count }
      match deriveJoinLabel e.name with
      | none => ({ st with comm := comm' }, [e.slug], false)
      | some joiningDate =>
        ({ prime := updateOnboardingData members joiningDate st.prime, comm := comm' },
          [e.slug], true)
    else (st, [], true)
  | none =>
    let members := fetchMembersBySlug (endpoints e.slug) fuel
    let comm' := st.comm ++ [{ slug := e.slug, countOfMembers := e.member_count }]
    match deriveJoinLabel e.name with
    | none => ({ st with comm := comm' }, [e.slug], false)
    | some joiningDate =>
      ({ prime := updateOnboardingData members joiningDate st.prime, comm := comm' },
        [e.slug], true)

/-- The per-entry loop of `processCommunityData`: entries in order as
received; a raised derivation error (success flag `false`) aborts the
remaining iterations, because the loop body is not wrapped in try/catch. -/
def processLoop (endpoints : String → Nat → PageResult) (fuel : Nat) :
    List Entry → RecState → RecState × List String × Bool
  | [], st => (st, [], true)
  | e :: rest, st =>
    match processEntry endpoints fuel st e with
    | (st', pulls, true) =>
      let r := processLoop endpoints fuel rest st'
      (r.1, pulls ++ r.2.1, r.2.2)
    | (st', pulls, false) => (st', pulls, false)

/-- `processCommunityData(name, mtop_sec_key)` (lines 126-151): fetch the
community list (failures already mapped to `[]`), then run the per-entry
loop. -/
def processCommunityData (outcome : Except Unit (List Entry))
    (endpoints : String → Nat → PageResult) (fuel : Nat)
    (st : RecState) : RecState × List String × Bool :=
  processLoop endpoints fuel (fetchCommunityData outcome) st

/-! ## HTTP handler (`app.get('/api/prime-data')`, lines 154-186) -/

/-- What the handler sends for one request: the JSON record list (line 181),
the 404 body (lines 178-180), the 500 body for a failed store read
(lines 182-185), or nothing at all — the handler's promise rejected before
reaching the response (an exception from `await processCommunityData(...)`
at line 174, which sits outside the try/catch). -/
inductive Response where
  | ok (records : List Person)
  | notFound
  | fetchFailed
  | noResponse
deriving DecidableEq, Repr

/-- Lines 176-185: `PrimeData.find()` wrapped in try/catch, then the
404/200 choice.  `storeReadFails` injects a rejection of the store read. -/
def readPrime (storeReadFails : Bool) (st : RecState) : Response :=
  if storeReadFails then .fetchFailed
  else if st.prime.isEmpty then .notFound
  else .ok st.prime

/-- The handler body after validation and the auth gate (lines 163-185):
`if (name) await processCommunityData(...)`, then the store read.  `month`
is `req.query.month`.  Returns the final store state and the response. -/
def primeDataHandler (outcome : Except Unit (List Entry))
    (endpoints : String → Nat → PageResult) (fuel : Nat)
    (month : Option String) (storeReadFails : Bool)
    (st : RecState) : RecState × Response :=
  match month with
  | none => (st, readPrime storeReadFails st)
  | some _ =>
    match processCommunityData outcome endpoints fuel st with
    | (st', _, true) => (st', readPrime storeReadFails st')
    | (st', _, false) => (st', .noResponse)

/-- The label `joiningDate` is already recorded on whatever record a lookup
of `uid` finds (so a further merge of `(uid, joiningDate)` is a no-op). -/
def labelStable (st : List Person) (uid joiningDate : String) : Prop :=
  ∀ p, st.find? (fun q => q.id == uid) = some p → joiningDate ∈ p.joiningDate

/-! ## Lemmas about `savePerson` and `mergeOne` -/

theorem updateOnboardingData_nil (joiningDate : String) (st : List Person) :
    updateOnboardingData [] joiningDate st = st := rfl

theorem updateOnboardingData_cons (m : Member) (ms : List Member)
    (joiningDate : String) (st : List Person) :
    updateOnboardingData (m :: ms) joiningDate st =
      updateOnboardingData ms joiningDate (mergeOne st m.usrloginid joiningDate) := rfl

theorem savePerson_of_find_none (st : List Person) (uid : String) (q : Person)
    (h : st.find? (fun p => p.id == uid) = none) : savePerson st uid q = st := by
  induction st with
  | nil => rfl
  | cons p rest ih =>
    rw [List.find?_eq_none] at h
    have hp : (p.id == uid) = false := by
      simpa using h p (List.mem_cons_self p rest)
    simp only [savePerson, hp, Bool.false_eq_true, if_false, List.cons.injEq, true_and]
    exact ih (List.find?_eq_none.mpr fun a ha => h a (List.mem_cons_of_mem p ha))

theorem find_savePerson_self (st : List Person) (uid : String) (q : Person)
    (r : Person) (hq : q.id = uid)
    (h : st.find? (fun p => p.id == uid) = some r) :
    (savePerson st uid q).find? (fun p => p.id == uid) = some q := by
  induction st with
  | nil => simp at h
  | cons p rest ih =>
    by_cases hp : p.id = uid
    · simp only [savePerson, hp, beq_self_eq_true, if_true]
      exact List.find?_cons_of_pos rest (by simp [hq])
    · have hpf : (p.id == uid) = false := by simp [hp]
      simp only [savePerson, hpf, Bool.false_eq_true, if_false]
      rw [List.find?_cons_of_neg rest (by simp [hp])] at h
      rw [List.find?_cons_of_neg (savePerson rest uid q) (by simp [hp])]
      exact ih h

theorem find_savePerson_other (st : List Person) (uid uid' : String) (q : Person)
    (hne : uid' ≠ uid) (hq : q.id = uid) :
    (savePerson st uid q).find? (fun p => p.id == uid') =
      st.find? (fun p => p.id == uid') := by
  induction st with
  | nil => rfl
  | cons p rest ih =>
    by_cases hp : p.id = uid
    · have hq' : (q.id == uid') = false := by simp [hq]; exact fun h => hne h.symm
      have hp' : (p.id == uid') = false := by simp [hp]; exact fun h => hne h.symm
      simp only [savePerson, hp, beq_self_eq_true, if_true]
      rw [List.find?_cons_of_neg rest (by simp [hq']),
        List.find?_cons_of_neg rest (by simp [hp'])]
    · have hpf : (p.id == uid) = false := by simp [hp]
      simp only [savePerson, hpf, Bool.false_eq_true, if_false]
      by_cases hp2 : p.id = uid'
      · rw [List.find?_cons_of_pos _ (by simp [hp2]),
          List.find?_cons_of_pos _ (by simp [hp2])]
      · rw [List.find?_cons_of_neg _ (by simp [hp2]),
          List.find?_cons_of_neg _ (by simp [hp2])]
        exact ih

theorem mergeOne_labelStable (st : List Person) (uid joiningDate : String) :
    labelStable (mergeOne st uid joiningDate) uid joiningDate := by
  unfold mergeOne
  cases h : st.find? (fun p => p.id == uid) with
  | none => intro p hp; rw [h] at hp; cases hp
  | some r =>
    have hr : r.id = uid := by
      have := List.find?_some h
      simpa using this
    by_cases hc : r.joiningDate.contains joiningDate
    · simp only [hc, if_true]
      intro p hp
      rw [h] at hp
      cases hp
      exact List.elem_iff.mp hc
    · simp only [hc, Bool.false_eq_true, if_false]
      intro p hp
      rw [find_savePerson_self st uid
        { r with joiningDate := joiningDate :: r.joiningDate } r hr h] at hp
      cases hp
      exact List.mem_cons_self _ _

theorem labelStable_mergeOne (st : List Person) (uid uid' joiningDate : String)
    (h : labelStable st uid joiningDate) :
    labelStable (mergeOne st uid' joiningDate) uid joiningDate := by
  by_cases he : uid = uid'
  · subst he; exact mergeOne_labelStable st uid joiningDate
  · unfold mergeOne
    cases hf : st.find? (fun p => p.id == uid') with
    | none => exact h
    | some r =>
      have hr : r.id = uid' := by
        have := List.find?_some hf
        simpa using this
      by_cases hc : r.joiningDate.contains joiningDate
      · simp only [hc, if_true]; exact h
      · simp only [hc, Bool.false_eq_true, if_false]
        intro p hp
        rw [find_savePerson_other st uid' uid
          { r with joiningDate := joiningDate :: r.joiningDate } he hr] at hp
        exact h p hp

theorem mergeOne_eq_of_labelStable (st : List Person) (uid joiningDate : String)
    (h : labelStable st uid joiningDate) : mergeOne st uid joiningDate = st := by
  unfold mergeOne
  cases hf : st.find? (fun p => p.id == uid) with
  | none => rfl
  | some r =>
    have hc : r.joiningDate.contains joiningDate = true :=
      List.elem_iff.mpr (h r hf)
    simp only [hc, if_true]

theorem labelStable_updateOnboardingData (ms : List Member)
    (st : List Person) (uid joiningDate : String)
    (h : labelStable st uid joiningDate) :
    labelStable (updateOnboardingData ms joiningDate st) uid joiningDate := by
  induction ms generalizing st with
  | nil => exact h
  | cons m rest ih =>
    rw [updateOnboardingData_cons]
    exact ih _ (labelStable_mergeOne st uid m.usrloginid joiningDate h)

theorem updateOnboardingData_labelStable_mem (ms : List Member)
    (st : List Person) (m : Member) (joiningDate : String) (hm : m ∈ ms) :
    labelStable (updateOnboardingData ms joiningDate st) m.usrloginid joiningDate := by
  induction ms generalizing st with
  | nil => cases hm
  | cons m' rest ih =>
    rw [updateOnboardingData_cons]
    rcases List.mem_cons.mp hm with he | hmem
    · subst he
      exact labelStable_updateOnboardingData rest _ _ _
        (mergeOne_labelStable st m.usrloginid joiningDate)
    · exact ih _ hmem

theorem updateOnboardingData_eq_of_labelStable (ms : List Member)
    (st : List Person) (joiningDate : String)
    (h : ∀ m ∈ ms, labelStable st m.usrloginid joiningDate) :
    updateOnboardingData ms joiningDate st = st := by
  induction ms with
  | nil => rfl
  | cons m rest ih =>
    rw [updateOnboardingData_cons,
      mergeOne_eq_of_labelStable st m.usrloginid joiningDate
        (h m (List.mem_cons_self m rest))]
    exact ih fun m' hm' => h m' (List.mem_cons_of_mem m hm')

theorem mem_savePerson (st : List Person) (uid : String) (q r : Person)
    (h : r ∈ savePerson st uid q) : r = q ∨ r ∈ st := by
  induction st with
  | nil => cases h
  | cons p rest ih =>
    by_cases hp : p.id = uid
    · simp only [savePerson, hp, beq_self_eq_true, if_true] at h
      rcases List.mem_cons.mp h with he | hmem
      · exact Or.inl he
      · exact Or.inr (List.mem_cons_of_mem p hmem)
    · have hpf : (p.id == uid) = false := by simp [hp]
      simp only [savePerson, hpf, Bool.false_eq_true, if_false] at h
      rcases List.mem_cons.mp h with he | hmem
      · exact Or.inr (he ▸ List.mem_cons_self p rest)
      · rcases ih hmem with he | hmem'
        · exact Or.inl he
        · exact Or.inr (List.mem_cons_of_mem p hmem')

theorem mergeOne_nodup (st : List Person) (uid joiningDate : String)
    (h : ∀ p ∈ st, p.joiningDate.Nodup) :
    ∀ p ∈ mergeOne st uid joiningDate, p.joiningDate.Nodup := by
  unfold mergeOne
  cases hf : st.find? (fun p => p.id == uid) with
  | none => exact h
  | some r =>
    by_cases hc : r.joiningDate.contains joiningDate
    · simp only [hc, if_true]; exact h
    · simp only [hc, Bool.false_eq_true, if_false]
      intro p hp
      rcases mem_savePerson st uid _ p hp with he | hmem
      · subst he
        refine List.nodup_cons.mpr ⟨?_, h r (List.mem_of_find?_eq_some hf)⟩
        exact fun hmem => hc (List.elem_iff.mpr hmem)
      · exact h p hmem

theorem savePerson_map_id (st : List Person) (uid : String) (q : Person)
    (hq : q.id = uid) :
    (savePerson st uid q).map Person.id = st.map Person.id := by
  induction st with
  | nil => rfl
  | cons p rest ih =>
    by_cases hp : p.id = uid
    · simp only [savePerson, hp, beq_self_eq_true, if_true, List.map_cons, hq]
    · have hpf : (p.id == uid) = false := by simp [hp]
      simp only [savePerson, hpf, Bool.false_eq_true, if_false, List.map_cons, ih]

theorem mergeOne_map_id (st : List Person) (uid joiningDate : String) :
    (mergeOne st uid joiningDate).map Person.id = st.map Person.id := by
  unfold mergeOne
  cases hf : st.find? (fun p => p.id == uid) with
  | none => rfl
  | some r =>
    have hr : r.id = uid := by simpa using List.find?_some hf
    by_cases hc : r.joiningDate.contains joiningDate
    · simp only [hc, if_true]
    · simp only [hc, Bool.false_eq_true, if_false]
      exact savePerson_map_id st uid _ hr

theorem updateOnboardingData_map_id (ms : List Member) (joiningDate : String)
    (st : List Person) :
    (updateOnboardingData ms joiningDate st).map Person.id = st.map Person.id := by
  induction ms generalizing st with
  | nil => rfl
  | cons m rest ih =>
    rw [updateOnboardingData_cons, ih, mergeOne_map_id]

theorem find_mergeOne_other (st : List Person) (uid uid' joiningDate : String)
    (hne : uid ≠ uid') :
    (mergeOne st uid' joiningDate).find? (fun p => p.id == uid) =
      st.find? (fun p => p.id == uid) := by
  unfold mergeOne
  cases hf : st.find? (fun p => p.id == uid') with
  | none => rfl
  | some r =>
    have hr : r.id = uid' := by simpa using List.find?_some hf
    by_cases hc : r.joiningDate.contains joiningDate
    · simp only [hc, if_true]
    · simp only [hc, Bool.false_eq_true, if_false]
      exact find_savePerson_other st uid' uid
        { r with joiningDate := joiningDate :: r.joiningDate } hne hr

theorem find_updateOnboardingData_of_labelStable (ms : List Member)
    (st : List Person) (uid joiningDate : String)
    (h : labelStable st uid joiningDate) :
    (updateOnboardingData ms joiningDate st).find? (fun p => p.id == uid) =
      st.find? (fun p => p.id == uid) := by
  induction ms generalizing st with
  | nil => rfl
  | cons m rest ih =>
    rw [updateOnboardingData_cons]
    by_cases hm : uid = m.usrloginid
    · rw [show mergeOne st m.usrloginid joiningDate = st from
        mergeOne_eq_of_labelStable st m.usrloginid joiningDate (hm ▸ h)]
      exact ih st h
    · rw [ih _ (labelStable_mergeOne st uid m.usrloginid joiningDate h),
        find_mergeOne_other st uid m.usrloginid joiningDate hm]

/-- C1: Merging is idempotent: running `updateOnboardingData` twice with the
same `(members, joiningDate)` over the same `PrimeData` store yields the
same final store (hence the same per-person label sequences) as running it
once. -/
theorem updateOnboardingData_idempotent (members : List Member)
    (joiningDate : String) (st : List Person) :
    updateOnboardingData members joiningDate
        (updateOnboardingData members joiningDate st) =
      updateOnboardingData members joiningDate st :=
  updateOnboardingData_eq_of_labelStable members _ joiningDate
    fun m hm => updateOnboardingData_labelStable_mem members st m joiningDate hm

/-- C2: No-duplicate-label invariant: if every persisted record's
`joiningDate` sequence is duplicate-free, then after any
`updateOnboardingData` call (any members batch, any label) every record's
`joiningDate` sequence still contains each label at most once. -/
theorem updateOnboardingData_no_duplicate_labels (members : List Member)
    (joiningDate : String) (st : List Person)
    (h : ∀ p ∈ st, p.joiningDate.Nodup) :
    ∀ p ∈ updateOnboardingData members joiningDate st, p.joiningDate.Nodup := by
  induction members generalizing st with
  | nil => exact h
  | cons m rest ih =>
    rw [updateOnboardingData_cons]
    exact ih _ (mergeOne_nodup st m.usrloginid joiningDate h)

theorem updateOnboardingData_no_duplicate_labels_witness :
    (∀ p ∈ ([⟨"A", "u1", ["May 2024"]⟩] : List Person), p.joiningDate.Nodup) ∧
    ∀ p ∈ updateOnboardingData [⟨"u1"⟩, ⟨"u1"⟩] "June 2024"
        [⟨"A", "u1", ["May 2024"]⟩], p.joiningDate.Nodup :=
  ⟨by decide,
    updateOnboardingData_no_duplicate_labels [⟨"u1"⟩, ⟨"u1"⟩] "June 2024"
      [⟨"A", "u1", ["May 2024"]⟩] (by decide)⟩

/-- C8: Merge never creates records: `updateOnboardingData` leaves the
stored id sequence unchanged (no record is ever created), and an identifier
with no existing record still has none afterwards. -/
theorem updateOnboardingData_never_creates (members : List Member)
    (joiningDate : String) (st : List Person) (uid : String) :
    (updateOnboardingData members joiningDate st).map Person.id = st.map Person.id ∧
    (st.find? (fun p => p.id == uid) = none →
      (updateOnboardingData members joiningDate st).find? (fun p => p.id == uid) = none) := by
  refine ⟨updateOnboardingData_map_id members joiningDate st, fun h => ?_⟩
  rw [List.find?_eq_none] at h ⊢
  intro p hp
  have hmap : p.id ∈ (updateOnboardingData members joiningDate st).map Person.id :=
    List.mem_map_of_mem Person.id hp
  rw [updateOnboardingData_map_id] at hmap
  obtain ⟨q, hq, hqid⟩ := List.mem_map.mp hmap
  intro hbeq
  exact h q hq (by rw [hqid]; exact hbeq)

theorem updateOnboardingData_never_creates_witness :
    ([⟨"A", "u1", ["May 2024"]⟩] : List Person).find? (fun p => p.id == "u2") = none ∧
    (updateOnboardingData [⟨"u2"⟩] "June 2024"
      [⟨"A", "u1", ["May 2024"]⟩]).find? (fun p => p.id == "u2") = none :=
  ⟨by decide,
    (updateOnboardingData_never_creates [⟨"u2"⟩] "June 2024"
      [⟨"A", "u1", ["May 2024"]⟩] "u2").2 (by decide)⟩

/-! ## Pager lemmas -/

theorem fetchMembersGo_succ_ok_cons (f : Nat → PageResult) (fuel page : Nat)
    (acc : List Member) (m : Member) (ms : List Member)
    (h : f page = .ok (m :: ms)) :
    fetchMembersGo f (fuel + 1) page acc =
      ((fetchMembersGo f fuel (page + 1) (acc ++ (m :: ms))).1,
        page :: (fetchMembersGo f fuel (page + 1) (acc ++ (m :: ms))).2) := by
  conv_lhs => rw [fetchMembersGo]
  rw [h]

theorem fetchMembersGo_pages (ps : List (List Member)) (f : Nat → PageResult)
    (page : Nat) (acc : List Member) (fuel : Nat)
    (hgood : ∀ i (hi : i < ps.length), f (page + i) = .ok (ps.get ⟨i, hi⟩))
    (hne : ∀ l ∈ ps, l ≠ [])
    (hstop : stopsLoop (f (page + ps.length)) = true)
    (hfuel : ps.length + 1 ≤ fuel) :
    fetchMembersGo f fuel page acc =
      (acc ++ ps.join, List.range' page (ps.length + 1)) := by
  induction ps generalizing page acc fuel with
  | nil =>
    cases fuel with
    | zero => exact absurd hfuel (by omega)
    | succ n =>
      simp only [List.length_nil, Nat.add_zero] at hstop
      unfold fetchMembersGo
      cases hf : f page with
      | ok ms =>
        cases ms with
        | nil => simp [List.range']
        | cons m ms' => rw [hf] at hstop; cases hstop
      | failure500 => simp [List.range']
      | failureOther => simp [List.range']
  | cons l rest ih =>
    cases fuel with
    | zero => exact absurd hfuel (by omega)
    | succ n =>
      have hl : f page = .ok l := by
        have h0 := hgood 0 (by simp)
        simpa using h0
      cases l with
      | nil => exact absurd rfl (hne [] (List.mem_cons_self [] rest))
      | cons m ms =>
        have hrest := ih (page + 1) (acc ++ (m :: ms)) n
          (fun i hi => by
            have h := hgood (i + 1) (by simp; omega)
            rw [show page + (i + 1) = page + 1 + i from by omega] at h
            simpa using h)
          (fun l' hl' => hne l' (List.mem_cons_of_mem (m :: ms) hl'))
          (by
            rw [show page + 1 + rest.length = page + ((m :: ms) :: rest).length from by
              simp; omega]
            exact hstop)
          (by simp at hfuel; omega)
        rw [fetchMembersGo_succ_ok_cons f n page acc m ms hl, hrest]
        simp only [List.join_cons, List.length_cons]
        rw [List.range'_succ page (rest.length + 1) 1]
        simp [List.append_assoc]

/-- C5: Pagination termination and completeness: with an endpoint serving
`ps.length` non-empty pages at pages `1 .. ps.length` and then any
loop-terminating outcome (empty page, HTTP-500 failure, or other failure)
at page `ps.length + 1`, `fetchMembersBySlug` returns exactly the
concatenation of the pages (for error terminators: everything accumulated
so far, the error never propagates), requesting exactly pages
`1, 2, ..., ps.length + 1` in ascending order — independently of any
sufficient fuel, which is the termination statement for the `while (true)`
loop. -/
theorem fetchMembersBySlug_pagination (f : Nat → PageResult)
    (ps : List (List Member)) (fuel : Nat)
    (hgood : ∀ i (hi : i < ps.length), f (1 + i) = .ok (ps.get ⟨i, hi⟩))
    (hne : ∀ l ∈ ps, l ≠ [])
    (hstop : stopsLoop (f (1 + ps.length)) = true)
    (hfuel : ps.length + 1 ≤ fuel) :
    fetchMembersBySlug f fuel = ps.join ∧
    fetchMembersGo f fuel 1 [] = (ps.join, List.range' 1 (ps.length + 1)) := by
  have h := fetchMembersGo_pages ps f 1 [] fuel hgood hne hstop hfuel
  rw [List.nil_append] at h
  exact ⟨by rw [fetchMembersBySlug, h], h⟩

theorem fetchMembersBySlug_pagination_witness :
    fetchMembersBySlug
        (fun n => if n = 1 then .ok [⟨"u1"⟩] else
          if n = 2 then .ok [⟨"u2"⟩] else .failure500) 3 =
      [⟨"u1"⟩, ⟨"u2"⟩] ∧
    fetchMembersGo
        (fun n => if n = 1 then .ok [⟨"u1"⟩] else
          if n = 2 then .ok [⟨"u2"⟩] else .failure500) 3 1 [] =
      ([⟨"u1"⟩, ⟨"u2"⟩], [1, 2, 3]) :=
  fetchMembersBySlug_pagination
    (fun n => if n = 1 then .ok [⟨"u1"⟩] else
      if n = 2 then .ok [⟨"u2"⟩] else .failure500)
    [[⟨"u1"⟩], [⟨"u2"⟩]] 3
    (fun i hi => by
      match i, hi with
      | 0, _ => rfl
      | 1, _ => rfl)
    (by decide) (by decide) (by decide)

/-- C9: Ordering invariant: if the record found for `uid` does not yet carry
`joiningDate` and some member of the batch has that identifier, then after
`updateOnboardingData` the record's sequence is exactly `joiningDate`
prepended to the old sequence (newest-first; old labels in unchanged
order). -/
theorem updateOnboardingData_prepend_ordering (members : List Member)
    (uid : String) (p : Person) (joiningDate : String) (st : List Person)
    (hfind : st.find? (fun q => q.id == uid) = some p)
    (hnot : p.joiningDate.contains joiningDate = false)
    (hmem : uid ∈ members.map Member.usrloginid) :
    (updateOnboardingData members joiningDate st).find? (fun q => q.id == uid) =
      some { p with joiningDate := joiningDate :: p.joiningDate } := by
  induction members generalizing st with
  | nil => cases hmem
  | cons m rest ih =>
    rw [updateOnboardingData_cons]
    by_cases hm : m.usrloginid = uid
    · subst hm
      have hpid : p.id = m.usrloginid := by simpa using List.find?_some hfind
      have hmerge : mergeOne st m.usrloginid joiningDate =
          savePerson st m.usrloginid
            { p with joiningDate := joiningDate :: p.joiningDate } := by
        simp only [mergeOne, hfind]
        rw [if_neg (by rw [hnot]; exact Bool.false_ne_true)]
      rw [find_updateOnboardingData_of_labelStable rest _ m.usrloginid joiningDate
        (mergeOne_labelStable st m.usrloginid joiningDate), hmerge]
      exact find_savePerson_self st m.usrloginid _ p hpid hfind
    · have hmem' : uid ∈ rest.map Member.usrloginid := by
        rw [List.map_cons] at hmem
        rcases List.mem_cons.mp hmem with he | hmem'
        · exact absurd he.symm hm
        · exact hmem'
      exact ih (mergeOne st m.usrloginid joiningDate)
        (by
          rw [find_mergeOne_other st uid m.usrloginid joiningDate
            fun he => hm he.symm]
          exact hfind) hmem'

/-! ## Reconciliation-loop lemmas -/

theorem processLoop_cons_ok (endpoints : String → Nat → PageResult) (fuel : Nat)
    (st st' : RecState) (e : Entry) (rest : List Entry) (pulls : List String)
    (hpe : processEntry endpoints fuel st e = (st', pulls, true)) :
    processLoop endpoints fuel (e :: rest) st =
      ((processLoop endpoints fuel rest st').1,
        pulls ++ (processLoop endpoints fuel rest st').2.1,
        (processLoop endpoints fuel rest st').2.2) := by
  conv_lhs => rw [processLoop]
  rw [hpe]

theorem processLoop_cons_fail (endpoints : String → Nat → PageResult) (fuel : Nat)
    (st st' : RecState) (e : Entry) (rest : List Entry) (pulls : List String)
    (hpe : processEntry endpoints fuel st e = (st', pulls, false)) :
    processLoop endpoints fuel (e :: rest) st = (st', pulls, false) := by
  conv_lhs => rw [processLoop]
  rw [hpe]

/-- When the join-label derivation succeeds, the per-entry body cannot
raise, for any endpoint behavior (member-page failures are swallowed inside
the pager, and the merge is fire-and-forget). -/
theorem processEntry_ok_of_derivable (endpoints : String → Nat → PageResult)
    (fuel : Nat) (st : RecState) (e : Entry)
    (hder : (deriveJoinLabel e.name).isSome) :
    (processEntry endpoints fuel st e).2.2 = true := by
  unfold processEntry
  cases hd : deriveJoinLabel e.name with
  | none => rw [hd] at hder; cases hder
  | some lbl =>
    cases hf : st.comm.find? (fun c => c.slug == e.slug) with
    | none => simp [hd]
    | some ce =>
      by_cases hc : ce.countOfMembers ≠ e.member_count
      · simp [hc, hd]
      · simp [hc]

theorem processLoop_ok_of_derivable (endpoints : String → Nat → PageResult)
    (fuel : Nat) (entries : List Entry) (st : RecState)
    (hder : ∀ e ∈ entries, (deriveJoinLabel e.name).isSome) :
    (processLoop endpoints fuel entries st).2.2 = true := by
  induction entries generalizing st with
  | nil => rfl
  | cons e rest ih =>
    rcases hpe : processEntry endpoints fuel st e with ⟨st', pulls, flag⟩
    have hflag : flag = true := by
      have h := processEntry_ok_of_derivable endpoints fuel st e
        (hder e (List.mem_cons_self e rest))
      rw [hpe] at h
      exact h
    subst hflag
    rw [processLoop_cons_ok endpoints fuel st st' e rest pulls hpe]
    exact ih st' fun e' he' => hder e' (List.mem_cons_of_mem e he')

theorem processLoop_append (endpoints : String → Nat → PageResult) (fuel : Nat)
    (l1 l2 : List Entry) (st : RecState)
    (hder : ∀ e ∈ l1, (deriveJoinLabel e.name).isSome) :
    processLoop endpoints fuel (l1 ++ l2) st =
      ((processLoop endpoints fuel l2 (processLoop endpoints fuel l1 st).1).1,
        (processLoop endpoints fuel l1 st).2.1 ++
          (processLoop endpoints fuel l2 (processLoop endpoints fuel l1 st).1).2.1,
        (processLoop endpoints fuel l2 (processLoop endpoints fuel l1 st).1).2.2) := by
  induction l1 generalizing st with
  | nil => simp [processLoop]
  | cons e rest ih =>
    rcases hpe : processEntry endpoints fuel st e with ⟨st', pulls, flag⟩
    have hflag : flag = true := by
      have h := processEntry_ok_of_derivable endpoints fuel st e
        (hder e (List.mem_cons_self e rest))
      rw [hpe] at h
      exact h
    subst hflag
    rw [List.cons_append,
      processLoop_cons_ok endpoints fuel st st' e (rest ++ l2) pulls hpe,
      processLoop_cons_ok endpoints fuel st st' e rest pulls hpe,
      ih st' fun e' he' => hder e' (List.mem_cons_of_mem e he')]
    simp [List.append_assoc]

/-- C7: No-op on stable count: if the entry's slug already has a snapshot
whose stored count equals the reported count, processing the entry issues
no member-pull call, writes no snapshot, and mutates no record: the state
is returned untouched. -/
theorem processEntry_noop_on_stable_count (endpoints : String → Nat → PageResult)
    (fuel : Nat) (st : RecState) (e : Entry) (snap : CommunitySnapshot)
    (hfind : st.comm.find? (fun c => c.slug == e.slug) = some snap)
    (hcount : snap.countOfMembers = e.member_count) :
    processEntry endpoints fuel st e = (st, [], true) := by
  unfold processEntry
  rw [hfind]
  simp [hcount]

theorem processEntry_noop_on_stable_count_witness :
    (([⟨"g1", 5⟩] : List CommunitySnapshot).find? (fun c => c.slug == "g1") =
      some ⟨"g1", 5⟩) ∧
    (CommunitySnapshot.countOfMembers ⟨"g1", 5⟩ = 5) ∧
    processEntry (fun _ _ => .ok [⟨"u1"⟩]) 2
        ⟨[⟨"U One", "u1", ["May 2024"]⟩], [⟨"g1", 5⟩]⟩ ⟨"g1", 5, "Prime - June 2024 Cohort"⟩ =
      (⟨[⟨"U One", "u1", ["May 2024"]⟩], [⟨"g1", 5⟩]⟩, [], true) :=
  ⟨by decide, by decide,
    processEntry_noop_on_stable_count (fun _ _ => .ok [⟨"u1"⟩]) 2
      ⟨[⟨"U One", "u1", ["May 2024"]⟩], [⟨"g1", 5⟩]⟩ ⟨"g1", 5, "Prime - June 2024 Cohort"⟩
      ⟨"g1", 5⟩ (by decide) (by decide)⟩

/-- C10: Label derivation is only defined when the name contains the
`"- "` separator: for a new-group entry whose derivation yields `none`
(`name.split('- ')[1]` is `undefined`), the member pull is still issued and
the snapshot is still written, but the per-entry loop raises and the whole
remainder of the reconciliation run is aborted — the result is independent
of the remaining entries, and no record is merged. -/
theorem processLoop_aborts_on_underivable_name (endpoints : String → Nat → PageResult)
    (fuel : Nat) (st : RecState) (e : Entry) (rest : List Entry)
    (hnew : st.comm.find? (fun c => c.slug == e.slug) = none)
    (hbad : deriveJoinLabel e.name = none) :
    processLoop endpoints fuel (e :: rest) st =
      ({ st with comm := st.comm ++ [{ slug := e.slug, countOfMembers := e.member_count }] },
        [e.slug], false) := by
  apply processLoop_cons_fail
  unfold processEntry
  rw [hnew, hbad]

theorem processLoop_aborts_on_underivable_name_witness :
    (([] : List CommunitySnapshot).find? (fun c => c.slug == "g1") = none) ∧
    deriveJoinLabel "NoSeparatorHere" = none ∧
    processLoop (fun _ _ => .ok []) 1
        [⟨"g1", 5, "NoSeparatorHere"⟩, ⟨"g2", 3, "Prime - June 2024 Cohort"⟩]
        ⟨[⟨"U One", "u1", ["May 2024"]⟩], []⟩ =
      (⟨[⟨"U One", "u1", ["May 2024"]⟩], [⟨"g1", 5⟩]⟩, ["g1"], false) :=
  ⟨by decide, by decide,
    processLoop_aborts_on_underivable_name (fun _ _ => .ok []) 1
      ⟨[⟨"U One", "u1", ["May 2024"]⟩], []⟩ ⟨"g1", 5, "NoSeparatorHere"⟩
      [⟨"g2", 3, "Prime - June 2024 Cohort"⟩] (by decide) (by decide)⟩

theorem updateOnboardingData_prepend_ordering_witness :
    ([⟨"A", "u1", ["May 2024", "Apr 2024"]⟩] : List Person).find?
        (fun q => q.id == "u1") = some ⟨"A", "u1", ["May 2024", "Apr 2024"]⟩ ∧
    (["May 2024", "Apr 2024"] : List String).contains "June 2024" = false ∧
    "u1" ∈ ([⟨"u1"⟩] : List Member).map Member.usrloginid ∧
    (updateOnboardingData [⟨"u1"⟩] "June 2024"
        [⟨"A", "u1", ["May 2024", "Apr 2024"]⟩]).find? (fun q => q.id == "u1") =
      some ⟨"A", "u1", ["June 2024", "May 2024", "Apr 2024"]⟩ :=
  ⟨by decide, by decide, by decide,
    updateOnboardingData_prepend_ordering [⟨"u1"⟩] "u1"
      ⟨"A", "u1", ["May 2024", "Apr 2024"]⟩ "June 2024"
      [⟨"A", "u1", ["May 2024", "Apr 2024"]⟩] (by decide) (by decide) (by decide)⟩


/-- C3 counterexample: the per-group failure-isolation claim is false as
stated: processing the first entry fails (its join-label derivation raises
inside the loop body, which has no try/catch), and the second entry — a new
group with a well-formed name and an available member page — is then *not*
processed: its snapshot is never written and its member's record is never
merged. -/
theorem processLoop_no_isolation_counterexample :
    processLoop
        (fun slug n => if slug = "g2" ∧ n = 1 then .ok [⟨"u1"⟩] else .ok []) 2
        [⟨"g1", 5, "NoSeparatorHere"⟩, ⟨"g2", 3, "Prime - June 2024 Cohort"⟩]
        ⟨[⟨"U One", "u1", ["May 2024"]⟩], []⟩ =
      (⟨[⟨"U One", "u1", ["May 2024"]⟩], [⟨"g1", 5⟩]⟩, ["g1"], false) ∧
    (⟨[⟨"U One", "u1", ["May 2024"]⟩], [⟨"g1", 5⟩]⟩ : RecState).comm.find?
        (fun c => c.slug == "g2") = none ∧
    processLoop
        (fun slug n => if slug = "g2" ∧ n = 1 then .ok [⟨"u1"⟩] else .ok []) 2
        [⟨"g2", 3, "Prime - June 2024 Cohort"⟩]
        ⟨[⟨"U One", "u1", ["May 2024"]⟩], []⟩ =
      (⟨[⟨"U One", "u1", ["June 2024", "May 2024"]⟩], [⟨"g2", 3⟩]⟩, ["g2"], true) := by
  decide

/-- C3 amended: isolation holds exactly for the failure kinds the code can
swallow: member-pull failures (caught inside `fetchMembersBySlug`) and
merge failures (the `updateOnboardingData` call is not awaited) cannot
abort the loop, so when every entry's join-label derivation succeeds, every
entry is processed, for arbitrary endpoint behavior: the run over
`l1 ++ l2` completes successfully and equals the run over `l1` followed by
the run over `l2` from the intermediate state.  A synchronous failure in an
entry body (join-label derivation on a name without `"- "`) is *not*
isolated and aborts the remaining entries. -/
theorem processLoop_isolation_amended (endpoints : String → Nat → PageResult)
    (fuel : Nat) (l1 l2 : List Entry) (st : RecState)
    (hder : ∀ e ∈ l1 ++ l2, (deriveJoinLabel e.name).isSome) :
    (processLoop endpoints fuel (l1 ++ l2) st).2.2 = true ∧
    processLoop endpoints fuel (l1 ++ l2) st =
      ((processLoop endpoints fuel l2 (processLoop endpoints fuel l1 st).1).1,
        (processLoop endpoints fuel l1 st).2.1 ++
          (processLoop endpoints fuel l2 (processLoop endpoints fuel l1 st).1).2.1,
        (processLoop endpoints fuel l2 (processLoop endpoints fuel l1 st).1).2.2) :=
  ⟨processLoop_ok_of_derivable endpoints fuel (l1 ++ l2) st hder,
    processLoop_append endpoints fuel l1 l2 st
      fun e he => hder e (List.mem_append_left l2 he)⟩

theorem processLoop_isolation_amended_witness :
    (∀ e ∈ ([⟨"g1", 5, "Prime - June 2024 Cohort"⟩] ++
        [⟨"g2", 3, "Prime - July 2024 Cohort"⟩] : List Entry),
      (deriveJoinLabel e.name).isSome) ∧
    (processLoop (fun _ _ => .failure500) 1
        ([⟨"g1", 5, "Prime - June 2024 Cohort"⟩] ++
          [⟨"g2", 3, "Prime - July 2024 Cohort"⟩])
        ⟨[⟨"U One", "u1", ["May 2024"]⟩], []⟩).2.2 = true :=
  ⟨by decide,
    (processLoop_isolation_amended (fun _ _ => .failure500) 1
      [⟨"g1", 5, "Prime - June 2024 Cohort"⟩]
      [⟨"g2", 3, "Prime - July 2024 Cohort"⟩]
      ⟨[⟨"U One", "u1", ["May 2024"]⟩], []⟩ (by decide)).1⟩

/-- C4 counterexample: a failure arising during reconciliation *can* change
the HTTP response: with a non-empty persisted store, a request whose period
triggers reconciliation over an entry with an underivable name makes the
handler's promise reject at `await processCommunityData(...)` — which sits
outside the try/catch — so no response reflecting the persisted records is
ever produced (`noResponse`), whereas the same request without the failing
entry answers with the persisted record set. -/
theorem primeDataHandler_counterexample :
    primeDataHandler (.ok [⟨"g1", 5, "NoSeparatorHere"⟩]) (fun _ _ => .ok []) 1
        (some "June") false ⟨[⟨"U One", "u1", ["May 2024"]⟩], []⟩ =
      (⟨[⟨"U One", "u1", ["May 2024"]⟩], [⟨"g1", 5⟩]⟩, .noResponse) ∧
    primeDataHandler (.ok []) (fun _ _ => .ok []) 1
        (some "June") false ⟨[⟨"U One", "u1", ["May 2024"]⟩], []⟩ =
      (⟨[⟨"U One", "u1", ["May 2024"]⟩], []⟩, .ok [⟨"U One", "u1", ["May 2024"]⟩]) ∧
    (Response.noResponse ≠ .ok [⟨"U One", "u1", ["May 2024"]⟩]) := by
  decide

/-- C4 amended: failures the code can swallow are invisible to the caller:
a failed community-list fetch aborts reconciliation with no partial writes
and the caller is served from the persisted store, and when every entry's
join label derives (so the loop body cannot raise), the response is always
computed by the store read from whatever state reconciliation persisted —
member-page failures included — with the store-read failure the only error
response.  A failure that the loop body raises synchronously (underivable
name) instead escapes the handler before any response is sent. -/
theorem primeDataHandler_failures_invisible (endpoints : String → Nat → PageResult)
    (fuel : Nat) (entries : List Entry) (month : String) (srf : Bool)
    (st : RecState)
    (hder : ∀ e ∈ entries, (deriveJoinLabel e.name).isSome) :
    primeDataHandler (.error ()) endpoints fuel (some month) srf st =
      (st, readPrime srf st) ∧
    primeDataHandler (.ok entries) endpoints fuel (some month) srf st =
      ((processLoop endpoints fuel entries st).1,
        readPrime srf (processLoop endpoints fuel entries st).1) ∧
    readPrime true st = .fetchFailed := by
  refine ⟨rfl, ?_, rfl⟩
  rcases hpl : processLoop endpoints fuel entries st with ⟨st', pulls, flag⟩
  have hflag : flag = true := by
    have h := processLoop_ok_of_derivable endpoints fuel entries st hder
    rw [hpl] at h
    exact h
  subst hflag
  unfold primeDataHandler processCommunityData fetchCommunityData
  rw [hpl]

theorem primeDataHandler_failures_invisible_witness :
    (∀ e ∈ ([⟨"g1", 5, "Prime - June 2024 Cohort"⟩] : List Entry),
      (deriveJoinLabel e.name).isSome) ∧
    primeDataHandler (.error ()) (fun _ _ => .failure500) 1 (some "June") false
        ⟨[⟨"U One", "u1", ["May 2024"]⟩], []⟩ =
      (⟨[⟨"U One", "u1", ["May 2024"]⟩], []⟩,
        readPrime false ⟨[⟨"U One", "u1", ["May 2024"]⟩], []⟩) :=
  ⟨by decide,
    (primeDataHandler_failures_invisible (fun _ _ => .failure500) 1
      [⟨"g1", 5, "Prime - June 2024 Cohort"⟩] "June" false
      ⟨[⟨"U One", "u1", ["May 2024"]⟩], []⟩ (by decide)).1⟩

/-- C6: Join-label derivation: the label is obtained by splitting the
entry's name on the literal `"- "` separator and joining the first two
whitespace-separated tokens of the remainder with a single space;
`"Prime - June 2024 Cohort"` yields `"June 2024"`, and running the engine
end-to-end on such an entry merges exactly that label. -/
theorem deriveJoinLabel_spec_example :
    jsSplit "- " "Prime - June 2024 Cohort" = ["Prime ", "June 2024 Cohort"] ∧
    (jsSplit " " "June 2024 Cohort").take 2 = ["June", "2024"] ∧
    deriveJoinLabel "Prime - June 2024 Cohort" = some "June 2024" ∧
    processCommunityData (.ok [⟨"g1", 5, "Prime - June 2024 Cohort"⟩])
        (fun slug n => if slug = "g1" ∧ n = 1 then .ok [⟨"u1"⟩] else .ok []) 3
        ⟨[⟨"U One", "u1", ["May 2024"]⟩], []⟩ =
      (⟨[⟨"U One", "u1", ["June 2024", "May 2024"]⟩], [⟨"g1", 5⟩]⟩, ["g1"], true) := by
  decide
